import Mathlib

/-!
Verification development for `chore_queue.py` (Todoist chore queue promoter).

The Python source is shallowly embedded: JSON identifiers (which may be
integers or strings) become the `Ident` sum type, Python truthiness becomes
`pyTruthy`, dictionaries built by iteration become folds over listing order,
`re.match(r"^\s*(\d{2,})\b", content)` becomes an explicit scan over the
character list, and `sorted(tasks, key=parse_order_key)` becomes
`List.mergeSort` with the total preorder induced by the Python tuple order
on `(int, str)` keys.  The remote Todoist service is represented by an
environment `Env` giving the responses to each API call, together with a
failure oracle `fail` saying which calls raise; `promote_queue` returns the
outcome (`none` models an uncaught exception), the ordered trace of API
calls it issued, and the final label-cache state.
-/

namespace ChoreQueue

/-- A JSON identifier as the Python code sees it: an integer or a string. -/
inductive Ident where
  | int (i : Int)
  | str (s : String)
deriving DecidableEq, Repr

/-- Python truthiness of an identifier value: `0` and `""` are falsy. -/
def pyTruthy : Ident → Bool
  | .int i => i != 0
  | .str s => s != ""

/-- Python truthiness of an optional identifier: `None` is falsy. -/
def pyTruthyOpt : Option Ident → Bool
  | none => false
  | some i => pyTruthy i

/-- A remote project record: `{id, name, parent_id}`. -/
structure Project where
  id : Ident
  name : String
  parent_id : Option Ident := none
deriving DecidableEq, Repr

/-- A label element of a task's `labels` field (ids or raw name tokens). -/
abbrev LabelTok := Ident

/-- A remote task record; `content` and `created_at` are optional because the
Python code reads them with `task.get(...)`. -/
structure Task where
  id : Ident
  content : Option String := none
  created_at : Option String := none
  due : Option String := none
  labels : List LabelTok := []
deriving DecidableEq, Repr

/-- A remote label record: `{id, name}`. -/
structure Label where
  id : Ident
  name : String
deriving DecidableEq, Repr

/-- ASCII whitespace as matched by the regex class backslash-s and stripped
by `str.strip` / `str.lstrip`. -/
def pyWhitespace (c : Char) : Bool :=
  c = ' ' || c = '\t' || c = '\n' || c = '\r' || c = '\x0b' || c = '\x0c'

/-- `str.lower` on one ASCII character. -/
def pyLowerChar (c : Char) : Char :=
  if 'A' ≤ c && c ≤ 'Z' then Char.ofNat (c.toNat + 32) else c

/-- `str.lower`. -/
def pyLower (s : String) : String :=
  ⟨s.data.map pyLowerChar⟩

/-- `str.strip()`: remove leading and trailing whitespace. -/
def pyStrip (s : String) : String :=
  ⟨((s.data.dropWhile pyWhitespace).reverse.dropWhile pyWhitespace).reverse⟩

/-- `str.lstrip()`: remove leading whitespace. -/
def pyLStrip (s : String) : String :=
  ⟨s.data.dropWhile pyWhitespace⟩

/-- `str.split("/")` on the underlying character list. -/
def splitAtSlash : List Char → List (List Char)
  | [] => [[]]
  | c :: cs =>
    if c = '/' then [] :: splitAtSlash cs
    else
      match splitAtSlash cs with
      | [] => [[c]]
      | g :: gs => (c :: g) :: gs

/-- `path.split("/")`. -/
def pySplitSlash (s : String) : List String :=
  (splitAtSlash s.data).map String.mk

/-- Python string comparison `<`: lexicographic by code point. -/
def pyStrLt : List Char → List Char → Bool
  | [], [] => false
  | [], _ :: _ => true
  | _ :: _, [] => false
  | a :: as, b :: bs => if a < b then true else if b < a then false else pyStrLt as bs

/-- A word character for the regex boundary backslash-b. -/
def wordChar (c : Char) : Bool :=
  c.isAlphanum || c = '_'

/-- The integer denoted by a list of decimal digit characters (as `int(...)`). -/
def digitsToNat (ds : List Char) : Nat :=
  ds.foldl (fun n c => n * 10 + (c.toNat - '0'.toNat)) 0

/-- The regex match `^\s*(\d{2,})\b` on a content string: skip leading
whitespace, take the maximal digit run; the match succeeds iff the run has
length at least 2 and the character after it (if any) is not a word
character.  Returns the captured group parsed as an integer. -/
def matchPrefixNum (content : String) : Option Nat :=
  let cs := content.data.dropWhile pyWhitespace
  let ds := cs.takeWhile Char.isDigit
  let rest := cs.dropWhile Char.isDigit
  if ds.length ≥ 2 && (match rest with | [] => true | c :: _ => !wordChar c) then
    some (digitsToNat ds)
  else
    none

/-- `parse_order_key` from the source: `(prefix_int or 10**9, created_at or "")`. -/
def parse_order_key (task : Task) : Nat × String :=
  let content := (task.content).getD ""
  let pfx := match matchPrefixNum content with
    | some n => n
    | none => 10 ^ 9
  let created := (task.created_at).getD ""
  (pfx, created)

/-- Strict lexicographic order on `(int, str)` keys, as Python compares the
tuples returned by `parse_order_key`. -/
def keyLT (a b : Nat × String) : Bool :=
  a.1 < b.1 || (a.1 == b.1 && pyStrLt a.2.data b.2.data)

/-- Non-strict key comparison: `a` may come before `b` in the sorted order. -/
def keyLE (a b : Nat × String) : Bool :=
  !(keyLT b a)

/-- The comparison used to sort tasks (Python's `sorted` is a stable sort by
the key's total preorder, which `List.mergeSort` implements). -/
def taskLE (a b : Task) : Bool :=
  keyLE (parse_order_key a) (parse_order_key b)

/-- `sorted(tasks, key=parse_order_key)` from `promote_queue`. -/
def sortTasks (tasks : List Task) : List Task :=
  tasks.mergeSort taskLE

/-- The dictionary `project_map` built by `_resolve_hierarchical_project`:
iterating the listing and assigning `project_map[p["id"]] = p`, so a lookup
returns the last project carrying the identifier. -/
def lookupProjectMap (projects : List Project) (i : Ident) : Option Project :=
  projects.foldl (fun acc p => if p.id = i then some p else acc) none

/-- The `children_map` of `_resolve_hierarchical_project`, read at one key:
iterating the listing, every project with a truthy `parent_id` equal to
`pid` appends its identifier. -/
def childrenMapGet (projects : List Project) (pid : Ident) : List Ident :=
  projects.foldl
    (fun acc p =>
      if pyTruthyOpt p.parent_id && p.parent_id == some pid then acc ++ [p.id] else acc)
    []

/-- One step of the traversal loop: scan `children_map[cur]` for the first
child whose stripped, lowercased name equals the (already stripped) segment
lowercased. -/
def findChild (projects : List Project) (cur : Ident) (part : String) : Option Ident :=
  (childrenMapGet projects cur).find? fun cid =>
    (lookupProjectMap projects cid).any fun cp => pyLower (pyStrip cp.name) == pyLower part

/-- The inner `for part in path_parts[1:]` loop of
`_resolve_hierarchical_project`, for one root candidate. -/
def walkPath (projects : List Project) : Ident → List String → Option Ident
  | cur, [] => some cur
  | cur, part :: parts =>
    match findChild projects cur part with
    | none => none
    | some nxt => walkPath projects nxt parts

/-- The `root_candidates` loop: projects without a truthy `parent_id` whose
stripped, lowercased name equals the first path segment lowercased, in
listing order. -/
def rootCandidates (projects : List Project) (seg0 : String) : List Ident :=
  projects.foldl
    (fun acc p =>
      if !pyTruthyOpt p.parent_id && pyLower (pyStrip p.name) == pyLower seg0 then acc ++ [p.id]
      else acc)
    []

/-- `_resolve_hierarchical_project` from the source. -/
def resolve_hierarchical_project (projects : List Project) (path : String) : Option Ident :=
  let path_parts := (pySplitSlash path).map pyStrip
  (rootCandidates projects (path_parts.headD "")).findSome? fun root =>
    walkPath projects root path_parts.tail

/-- `get_project_id_by_name` from the source: first case-insensitive exact
match on the full name wins; otherwise, hierarchical lookup when the name
contains a slash. -/
def get_project_id_by_name (projects : List Project) (name : String) : Option Ident :=
  match projects.find? (fun p => pyLower (pyStrip p.name) == pyLower (pyStrip name)) with
  | some p => some p.id
  | none =>
    if name.data.contains '/' then resolve_hierarchical_project projects name
    else none

/-- The walk of claim C3, written from the claim's words: match each
subsequent segment against the current node's direct children, the first
case-insensitive match winning, abandoning the candidate when no child
matches. -/
def walkClaimC3 (projects : List Project) : Ident → List String → Option Ident
  | cur, [] => some cur
  | cur, seg :: segs =>
    match (projects.filter fun p => p.parent_id == some cur).find?
        (fun p => pyLower (pyStrip p.name) == pyLower seg) with
    | none => none
    | some child => walkClaimC3 projects child.id segs

/-- Hierarchical resolution as claim C3 words it: split the path into
trimmed segments, take as root candidates every parentless project whose
trimmed name matches the first segment case-insensitively, and return the
identifier reached by the first candidate, in listing order, whose complete
walk succeeds. -/
def resolveClaimC3 (projects : List Project) (path : String) : Option Ident :=
  let segs := (pySplitSlash path).map pyStrip
  (projects.filter fun p =>
      p.parent_id == none && pyLower (pyStrip p.name) == pyLower (segs.headD "")).findSome?
    fun root => walkClaimC3 projects root.id segs.tail

/-- One queue configuration dict, with the defaults `promote_queue` reads
via `cfg.get(...)`. -/
structure Cfg where
  project_name : String
  due_string : String := "today"
  language : String := "en"
  promote_label : Option String := none
  clear_due_on_rest : Bool := true
deriving DecidableEq, Repr

/-- Python truthiness of an optional string (`None` and `""` are falsy). -/
def pyTruthyStrOpt : Option String → Bool
  | none => false
  | some s => s != ""

/-- One remote API call issued by the client, as recorded in the trace. -/
inductive Call where
  | listProjects
  | listTasks (pid : Ident)
  | updateDue (tid : Ident) (due_string : String) (lang : String)
  | updateLabels (tid : Ident) (labels : List LabelTok)
  | listLabels
  | createLabel (name : String)
deriving DecidableEq, Repr

/-- The remote service as the client observes it during one run: the
listing responses, the identifier minted for a created label, and a failure
oracle saying which calls raise an API error. -/
structure Env where
  projects : List Project
  tasksOf : Ident → List Task
  labels : List Label
  createdId : String → Ident
  fail : Call → Bool

/-- `Todoist.ensure_label` with the `_label_cache` passed explicitly:
returns the label identifier (or an error for the `ValueError` on an empty
stripped name and for raising API calls), the new cache state, and the
calls issued. -/
def ensure_label (env : Env) (cache : Option (List Label)) (label_name : String) :
    Except Unit Ident × Option (List Label) × List Call :=
  let name := pyLStrip label_name
  if name = "" then (.error (), cache, [])
  else
    match cache with
    | some labs =>
      match labs.find? (fun lab => pyLower lab.name == pyLower name) with
      | some lab => (.ok lab.id, some labs, [])
      | none =>
        if env.fail (.createLabel name) then (.error (), some labs, [.createLabel name])
        else (.ok (env.createdId name), none, [.createLabel name])
    | none =>
      if env.fail .listLabels then (.error (), none, [.listLabels])
      else
        match env.labels.find? (fun lab => pyLower lab.name == pyLower name) with
        | some lab => (.ok lab.id, some env.labels, [.listLabels])
        | none =>
          if env.fail (.createLabel name) then
            (.error (), some env.labels, [.listLabels, .createLabel name])
          else (.ok (env.createdId name), none, [.listLabels, .createLabel name])

/-- The `for tsk in rest` loop of `promote_queue` clearing due dates:
returns the count cleared (or an error at the first raising call) and the
update calls issued in order. -/
def clearRest (env : Env) (lang : String) : List Task → Except Unit Nat × List Call
  | [] => (.ok 0, [])
  | t :: ts =>
    match t.due with
    | none => clearRest env lang ts
    | some _ =>
      let c := Call.updateDue t.id "no due date" lang
      if env.fail c then (.error (), [c])
      else
        match clearRest env lang ts with
        | (.ok n, tr) => (.ok (n + 1), c :: tr)
        | (.error e, tr) => (.error e, c :: tr)

/-- The body of the `try` block in `promote_queue`'s labeling step: ensure
the label exists, then write `head`'s label set back only when the label is
missing both as an identifier and as a raw token. -/
def labelStep (env : Env) (cache : Option (List Label)) (head : Task)
    (promote_label : String) : Except Unit Unit × Option (List Label) × List Call :=
  match ensure_label env cache promote_label with
  | (.error e, cache2, tr) => (.error e, cache2, tr)
  | (.ok label_id, cache2, tr) =>
    let labels := head.labels
    if !labels.contains label_id && !labels.contains (.str promote_label) then
      let c := Call.updateLabels head.id (labels ++ [label_id])
      if env.fail c then (.error (), cache2, tr ++ [c])
      else (.ok (), cache2, tr ++ [c])
    else (.ok (), cache2, tr)

/-- The summary dict returned by `promote_queue`; keys absent from a given
outcome are `none`. -/
structure PResult where
  project : String
  status : String
  promoted_task : Option String := none
  cleared_due_on : Option Nat := none
  labeled : Option Bool := none
deriving DecidableEq, Repr

/-- `promote_queue` from the source.  The first component is the returned
summary (`none` models an exception propagating out of the function), the
second the ordered trace of API calls issued, the third the label cache
after the run.  The emptiness test is performed on the sorted list, which
is empty exactly when the fetched list is. -/
def promote_queue (env : Env) (cache : Option (List Label)) (cfg : Cfg) :
    Option PResult × List Call × Option (List Label) :=
  let pname := cfg.project_name
  if env.fail .listProjects then (none, [.listProjects], cache)
  else
    match get_project_id_by_name env.projects pname with
    | none => (some { project := pname, status := "missing_project" }, [.listProjects], cache)
    | some pid =>
      if !pyTruthy pid then
        (some { project := pname, status := "missing_project" }, [.listProjects], cache)
      else if env.fail (.listTasks pid) then (none, [.listProjects, .listTasks pid], cache)
      else
        match sortTasks (env.tasksOf pid) with
        | [] => (some { project := pname, status := "empty" },
                 [.listProjects, .listTasks pid], cache)
        | head :: rest =>
          let c1 := Call.updateDue head.id cfg.due_string cfg.language
          if env.fail c1 then (none, [.listProjects, .listTasks pid, c1], cache)
          else
            let base := [Call.listProjects, .listTasks pid, c1]
            match (if cfg.clear_due_on_rest then clearRest env cfg.language rest
                   else (.ok 0, [])) with
            | (.error _, tr) => (none, base ++ tr, cache)
            | (.ok cleared, tr) =>
              if pyTruthyStrOpt cfg.promote_label then
                match labelStep env cache head (cfg.promote_label.getD "") with
                | (.ok _, cache2, tr2) =>
                  (some { project := pname, status := "ok",
                          promoted_task := some (head.content.getD "(unnamed)"),
                          cleared_due_on := some cleared, labeled := some true },
                   base ++ tr ++ tr2, cache2)
                | (.error _, cache2, tr2) =>
                  (some { project := pname, status := "ok",
                          promoted_task := some (head.content.getD "(unnamed)"),
                          cleared_due_on := some cleared, labeled := some false },
                   base ++ tr ++ tr2, cache2)
              else
                (some { project := pname, status := "ok",
                        promoted_task := some (head.content.getD "(unnamed)"),
                        cleared_due_on := some cleared, labeled := some false },
                 base ++ tr, cache)

/-- Modelled from the spec: the remote service's task-state change for one
update call, which is not itself part of the source.  A due-date update
with the explicit "no due date" directive clears the task's due field and
any other directive sets one (spec §4.3 steps 4–5, glossary "Promote" and
"Demote"); a label update replaces the task's label set (spec §6
"Mutation"). -/
def applyCallTasks (ts : List Task) : Call → List Task
  | .updateDue tid ds _ =>
    ts.map fun t =>
      if t.id = tid then { t with due := if ds = "no due date" then none else some ds } else t
  | .updateLabels tid ls => ts.map fun t => if t.id = tid then { t with labels := ls } else t
  | _ => ts

/-- Modelled from the spec: label creation adds a remote label record with
the minted identifier (spec §6 "Labels"). -/
def applyCallLabels (created : String → Ident) (labs : List Label) : Call → List Label
  | .createLabel name => labs ++ [{ id := created name, name := name }]
  | _ => labs

/-- Modelled from the spec: the remote snapshot after a trace of calls has
been applied — task lists and the label listing updated call by call (spec
§5: the next run reads the state left by the previous run's writes). -/
def applyTraceEnv (env : Env) (tr : List Call) : Env :=
  { env with
    tasksOf := fun pid => tr.foldl applyCallTasks (env.tasksOf pid)
    labels := tr.foldl (applyCallLabels env.createdId) env.labels }

/-- Parent references form a well-shaped forest: a project either has no
parent or a truthy parent identifier (the source treats a falsy
`parent_id` exactly like a missing one). -/
def parentsWF (projects : List Project) : Prop :=
  ∀ p ∈ projects, p.parent_id = none ∨ pyTruthyOpt p.parent_id = true

/-- The update calls issued by the demote loop, in order. -/
def clearTrace (lang : String) (rest : List Task) : List Call :=
  (rest.filter fun t => t.due.isSome).map fun t => Call.updateDue t.id "no due date" lang

/-- Whether an `Except` value is a success. -/
def exceptOkBool {ε α : Type} : Except ε α → Bool
  | .ok _ => true
  | .error _ => false

/-- A head task used in the promotion-run witnesses. -/
def wTaskA : Task := { id := .int 10, content := some "02 trash", created_at := some "c1" }

/-- A rest task carrying a due date, used in the promotion-run witnesses. -/
def wTaskB : Task :=
  { id := .int 11, content := some "10 dishes", created_at := some "c2",
    due := some "2024-01-01" }

/-- A concrete remote environment with one project and two tasks. -/
def wEnv : Env where
  projects := [{ id := .int 1, name := "q" }]
  tasksOf := fun _ => [wTaskA, wTaskB]
  labels := []
  createdId := fun _ => .int 99
  fail := fun _ => false

/-- The same environment, but every label-listing call raises. -/
def wEnvLabelFail : Env := { wEnv with fail := fun c => c == Call.listLabels }

/-- A queue configuration without labeling. -/
def wCfg : Cfg := { project_name := "q" }

/-- A queue configuration with the promote label "@next". -/
def wCfgLabel : Cfg := { project_name := "q", promote_label := some "@next" }

/-- A head task that already carries label id 42, for the C9 witness. -/
def wTaskL : Task :=
  { id := .int 10, content := some "02 trash", created_at := some "c1",
    labels := [.int 42] }

/-- An environment whose label listing already holds "@next" with id 42. -/
def wEnvL : Env where
  projects := [{ id := .int 1, name := "q" }]
  tasksOf := fun _ => [wTaskL, wTaskB]
  labels := [{ id := .int 42, name := "@next" }]
  createdId := fun _ => .int 99
  fail := fun _ => false

/-- The effect of a single call on a single task (the pointwise form of
`applyCallTasks`). -/
def applyFun (c : Call) (t : Task) : Task :=
  match c with
  | .updateDue tid ds _ =>
    if t.id = tid then { t with due := if ds = "no due date" then none else some ds } else t
  | .updateLabels tid ls => if t.id = tid then { t with labels := ls } else t
  | _ => t

/-- A whole trace applied to a single task. -/
def applyAll (tr : List Call) (t : Task) : Task :=
  tr.foldl (fun u c => applyFun c u) t

/-- Strict key order between tasks, as a proposition. -/
def taskKeyLT (a b : Task) : Prop :=
  keyLT (parse_order_key a) (parse_order_key b) = true

/-! ### Order-theoretic facts about the sort key -/

theorem pyStrLt_irrefl : ∀ as, pyStrLt as as = false
  | [] => rfl
  | a :: as => by
    simp only [pyStrLt, if_neg (lt_irrefl a)]
    exact pyStrLt_irrefl as

theorem pyStrLt_asymm : ∀ as bs, pyStrLt as bs = true → pyStrLt bs as = false
  | [], [], h => by simp [pyStrLt] at h
  | [], _ :: _, _ => rfl
  | _ :: _, [], h => by simp [pyStrLt] at h
  | a :: as, b :: bs, h => by
    simp only [pyStrLt] at h ⊢
    rcases lt_trichotomy a b with hab | hab | hab
    · rw [if_neg (lt_asymm hab), if_pos hab]
    · subst hab
      rw [if_neg (lt_irrefl a)] at h ⊢
      rw [if_neg (lt_irrefl a)] at h ⊢
      exact pyStrLt_asymm as bs h
    · rw [if_neg (lt_asymm hab), if_pos hab] at h
      simp at h

theorem pyStrLt_trans : ∀ as bs cs,
    pyStrLt as bs = true → pyStrLt bs cs = true → pyStrLt as cs = true
  | _, bs, [], _, h2 => by cases bs <;> simp [pyStrLt] at h2
  | [], _, _ :: _, _, _ => rfl
  | a :: as, bs, c :: cs, h1, h2 => by
    cases bs with
    | nil => simp [pyStrLt] at h1
    | cons b bs =>
      simp only [pyStrLt] at h1 h2 ⊢
      rcases lt_trichotomy a b with hab | hab | hab
      · rcases lt_trichotomy b c with hbc | hbc | hbc
        · rw [if_pos (lt_trans hab hbc)]
        · subst hbc
          rw [if_pos hab]
        · rw [if_neg (lt_asymm hbc), if_pos hbc] at h2
          simp at h2
      · subst hab
        rw [if_neg (lt_irrefl a)] at h1
        rw [if_neg (lt_irrefl a)] at h1
        rcases lt_trichotomy a c with hac | hac | hac
        · rw [if_pos hac]
        · subst hac
          rw [if_neg (lt_irrefl a)] at h2 ⊢
          rw [if_neg (lt_irrefl a)] at h2 ⊢
          exact pyStrLt_trans as bs cs h1 h2
        · rw [if_neg (lt_asymm hac), if_pos hac] at h2
          simp at h2
      · rw [if_neg (lt_asymm hab), if_pos hab] at h1
        simp at h1

theorem pyStrLt_connex : ∀ as bs, pyStrLt as bs = false → pyStrLt bs as = false → as = bs
  | [], [], _, _ => rfl
  | [], _ :: _, h1, _ => by simp [pyStrLt] at h1
  | _ :: _, [], _, h2 => by simp [pyStrLt] at h2
  | a :: as, b :: bs, h1, h2 => by
    simp only [pyStrLt] at h1 h2
    rcases lt_trichotomy a b with hab | hab | hab
    · rw [if_pos hab] at h1
      simp at h1
    · subst hab
      rw [if_neg (lt_irrefl a)] at h1 h2
      rw [if_neg (lt_irrefl a)] at h1 h2
      rw [pyStrLt_connex as bs h1 h2]
    · rw [if_pos hab] at h2
      simp at h2

theorem keyLT_iff {a b : Nat × String} :
    keyLT a b = true ↔ a.1 < b.1 ∨ (a.1 = b.1 ∧ pyStrLt a.2.data b.2.data = true) := by
  simp [keyLT, Bool.or_eq_true, Bool.and_eq_true, beq_iff_eq, decide_eq_true_eq]

theorem keyLT_irrefl (a : Nat × String) : keyLT a a = false := by
  rw [Bool.eq_false_iff]
  intro h
  rcases keyLT_iff.mp h with h1 | ⟨_, h2⟩
  · exact lt_irrefl _ h1
  · rw [pyStrLt_irrefl] at h2
    exact Bool.false_ne_true h2

theorem keyLT_asymm {a b : Nat × String} (h : keyLT a b = true) : keyLT b a = false := by
  rw [Bool.eq_false_iff]
  intro h2
  rcases keyLT_iff.mp h with h1 | ⟨he, hs⟩ <;> rcases keyLT_iff.mp h2 with h1' | ⟨he', hs'⟩
  · exact absurd h1' (Nat.lt_asymm h1)
  · exact absurd he' (Nat.ne_of_lt h1).symm
  · exact absurd he (Nat.ne_of_lt h1').symm
  · rw [pyStrLt_asymm _ _ hs] at hs'
    exact Bool.false_ne_true hs'

theorem keyLT_trans {a b c : Nat × String} (h1 : keyLT a b = true) (h2 : keyLT b c = true) :
    keyLT a c = true := by
  rcases keyLT_iff.mp h1 with hn | ⟨he, hs⟩ <;> rcases keyLT_iff.mp h2 with hn' | ⟨he', hs'⟩
  · exact keyLT_iff.mpr (Or.inl (Nat.lt_trans hn hn'))
  · exact keyLT_iff.mpr (Or.inl (he' ▸ hn))
  · exact keyLT_iff.mpr (Or.inl (he ▸ hn'))
  · exact keyLT_iff.mpr (Or.inr ⟨he.trans he', pyStrLt_trans _ _ _ hs hs'⟩)

theorem keyLT_connex {a b : Nat × String} (h1 : keyLT a b = false) (h2 : keyLT b a = false) :
    a = b := by
  rw [Bool.eq_false_iff] at h1 h2
  have hn : a.1 = b.1 := by
    rcases Nat.lt_trichotomy a.1 b.1 with h | h | h
    · exact absurd (keyLT_iff.mpr (Or.inl h)) h1
    · exact h
    · exact absurd (keyLT_iff.mpr (Or.inl h)) h2
  have hs : a.2 = b.2 := by
    rcases hd : pyStrLt a.2.data b.2.data with _ | _ <;>
      rcases hd2 : pyStrLt b.2.data a.2.data with _ | _
    · have : a.2.data = b.2.data := pyStrLt_connex _ _ hd hd2
      show a.2 = b.2
      calc a.2 = ⟨a.2.data⟩ := rfl
        _ = ⟨b.2.data⟩ := by rw [this]
        _ = b.2 := rfl
    · exact absurd (keyLT_iff.mpr (Or.inr ⟨hn.symm, hd2⟩)) h2
    · exact absurd (keyLT_iff.mpr (Or.inr ⟨hn, hd⟩)) h1
    · exact absurd (keyLT_iff.mpr (Or.inr ⟨hn, hd⟩)) h1
  exact Prod.ext hn hs

theorem keyLE_iff {a b : Nat × String} : keyLE a b = true ↔ keyLT b a = false := by
  simp [keyLE]

theorem taskLE_total (a b : Task) : taskLE a b || taskLE b a := by
  rcases h : keyLT (parse_order_key b) (parse_order_key a) with _ | _
  · simp [taskLE, keyLE, h]
  · simp [taskLE, keyLE, keyLT_asymm h]

theorem taskLE_trans (a b c : Task) (h1 : taskLE a b) (h2 : taskLE b c) : taskLE a c := by
  simp only [taskLE, keyLE_iff] at h1 h2 ⊢
  rw [Bool.eq_false_iff]
  intro hca
  rcases hab : keyLT (parse_order_key a) (parse_order_key b) with _ | _
  · have := keyLT_connex h1 hab
    rw [Bool.eq_false_iff, this] at h2
    exact h2 hca
  · rw [Bool.eq_false_iff] at h2
    exact h2 (keyLT_trans hca hab)

theorem sortTasks_pair (a b : Task) :
    sortTasks [a, b] = if taskLE a b then [a, b] else [b, a] := by
  unfold sortTasks
  rw [List.mergeSort]
  simp [List.splitInTwo, List.splitAt, List.splitAt.go, List.merge]

theorem sortTasks_perm (ts : List Task) : (sortTasks ts).Perm ts :=
  List.mergeSort_perm ts taskLE

theorem sortTasks_pairwise (ts : List Task) : (sortTasks ts).Pairwise fun a b => taskLE a b :=
  List.sorted_mergeSort taskLE_trans taskLE_total ts

theorem matchPrefixNum_02 (s : String) : matchPrefixNum ("02 " ++ s) = some 2 := rfl

theorem matchPrefixNum_10 (s : String) : matchPrefixNum ("10 " ++ s) = some 10 := rfl

theorem parse_order_key_of_match {t : Task} {p : Nat}
    (h : matchPrefixNum (t.content.getD "") = some p) :
    parse_order_key t = (p, t.created_at.getD "") := by
  simp [parse_order_key, h]

theorem parse_order_key_of_no_match {t : Task}
    (h : matchPrefixNum (t.content.getD "") = none) :
    parse_order_key t = (10 ^ 9, t.created_at.getD "") := by
  simp [parse_order_key, h]

/-- C1: for every list of tasks, the ordering function sorts ascending by
the pair (numeric prefix, creation timestamp): the output is a permutation
of the input sorted by the key order, a task whose content begins with the
prefix "02 " has a strictly smaller key than one beginning "10 ", among
tasks with equal (or equally absent) prefixes the one with the
lexicographically smaller `created_at` string has the strictly smaller
key, and the head of the queue — the first element of the sorted list — is
key-minimal among all tasks. -/
theorem C1_task_ordering (ts : List Task) :
    (sortTasks ts).Perm ts ∧
    ((sortTasks ts).Pairwise fun a b => keyLE (parse_order_key a) (parse_order_key b) = true) ∧
    (∀ (a b : Task) (s u : String), a.content = some ("02 " ++ s) → b.content = some ("10 " ++ u) →
      keyLT (parse_order_key a) (parse_order_key b) = true) ∧
    (∀ a b : Task, (parse_order_key a).1 = (parse_order_key b).1 →
      pyStrLt (parse_order_key a).2.data (parse_order_key b).2.data = true →
      keyLT (parse_order_key a) (parse_order_key b) = true) ∧
    (∀ head tail, sortTasks ts = head :: tail →
      ∀ x ∈ ts, keyLE (parse_order_key head) (parse_order_key x) = true) := by
  refine ⟨sortTasks_perm ts, sortTasks_pairwise ts, ?_, ?_, ?_⟩
  · intro a b s u ha hb
    have hka : parse_order_key a = (2, a.created_at.getD "") :=
      parse_order_key_of_match (by rw [ha]; exact matchPrefixNum_02 s)
    have hkb : parse_order_key b = (10, b.created_at.getD "") :=
      parse_order_key_of_match (by rw [hb]; exact matchPrefixNum_10 u)
    rw [hka, hkb]
    exact keyLT_iff.mpr (Or.inl (by norm_num))
  · intro a b h1 h2
    exact keyLT_iff.mpr (Or.inr ⟨h1, h2⟩)
  · intro head tail hsort x hx
    have hmem : x ∈ head :: tail := by
      rw [← hsort]
      exact ((sortTasks_perm ts).mem_iff).mpr hx
    rcases List.mem_cons.mp hmem with rfl | hmem
    · rw [keyLE_iff, keyLT_irrefl]
    · have hp := sortTasks_pairwise ts
      rw [hsort] at hp
      exact List.rel_of_pairwise_cons hp hmem

/-- Witness for C1 at concrete inputs: a two-task list is permuted and the
"02 "-prefixed task keys strictly below the "10 "-prefixed one. -/
theorem C1_task_ordering_witness :
    (sortTasks [{ id := .int 1, content := some "10 dishes" },
                { id := .int 2, content := some "02 trash" }]).Perm
      [{ id := .int 1, content := some "10 dishes" },
       { id := .int 2, content := some "02 trash" }] ∧
    keyLT (parse_order_key { id := .int 2, content := some "02 trash" })
      (parse_order_key { id := .int 1, content := some "10 dishes" }) = true :=
  ⟨(C1_task_ordering _).1,
   (C1_task_ordering []).2.2.1 { id := .int 2, content := some "02 trash" }
     { id := .int 1, content := some "10 dishes" } "trash" "dishes" rfl rfl⟩

/-- C2 counterexample: the task "1000000000 wash" carries a numeric prefix
(the regex matches and yields 10^9, the same value as the sentinel), yet it
sorts after the prefix-free task "wipe" created earlier, refuting the
claim's "every possible prefix value". -/
theorem C2_counterexample :
    (matchPrefixNum "1000000000 wash").isSome = true ∧
    matchPrefixNum "wipe" = none ∧
    sortTasks
      [{ id := .int 1, content := some "1000000000 wash", created_at := some "2024-01-02" },
       { id := .int 2, content := some "wipe", created_at := some "2024-01-01" }] =
      [{ id := .int 2, content := some "wipe", created_at := some "2024-01-01" },
       { id := .int 1, content := some "1000000000 wash", created_at := some "2024-01-02" }] := by
  refine ⟨rfl, rfl, ?_⟩
  rw [sortTasks_pair]
  exact if_neg (by decide)

/-- C2 amended: a task whose content carries a numeric prefix strictly
below the sentinel 10^9 keys strictly before every task without a numeric
prefix, regardless of either creation timestamp; at and above the sentinel
value the guarantee fails (see the counterexample). -/
theorem C2_prefixed_before_unprefixed (a b : Task) (p : Nat)
    (hp : matchPrefixNum (a.content.getD "") = some p) (hlt : p < 10 ^ 9)
    (hb : matchPrefixNum (b.content.getD "") = none) :
    keyLT (parse_order_key a) (parse_order_key b) = true := by
  rw [parse_order_key_of_match hp, parse_order_key_of_no_match hb]
  exact keyLT_iff.mpr (Or.inl hlt)

/-- Witness for the amended C2 at a concrete pair of tasks. -/
theorem C2_prefixed_before_unprefixed_witness :
    keyLT (parse_order_key { id := .int 1, content := some "02 trash", created_at := some "z" })
      (parse_order_key { id := .int 2, content := some "wipe", created_at := some "a" }) = true :=
  C2_prefixed_before_unprefixed _ _ 2 rfl (by norm_num) rfl

/-- C4: if some project's full name (stripped, lowercased) equals the path
(stripped, lowercased), the resolver returns such a project's identifier —
in particular a name containing a literal "/" is matched this way; and when
no exact match exists, hierarchical resolution is attempted exactly when
the path contains "/". -/
theorem C4_exact_match_first (projects : List Project) (path : String) :
    ((∃ p ∈ projects, pyLower (pyStrip p.name) = pyLower (pyStrip path)) →
      ∃ p ∈ projects, pyLower (pyStrip p.name) = pyLower (pyStrip path) ∧
        get_project_id_by_name projects path = some p.id) ∧
    ((∀ p ∈ projects, pyLower (pyStrip p.name) ≠ pyLower (pyStrip path)) →
      get_project_id_by_name projects path =
        if path.data.contains '/' then resolve_hierarchical_project projects path
        else none) := by
  constructor
  · intro hex
    have hs : (projects.find? fun p => pyLower (pyStrip p.name) == pyLower (pyStrip path)).isSome := by
      rw [List.find?_isSome]
      obtain ⟨p, hp, hn⟩ := hex
      exact ⟨p, hp, by simp [hn]⟩
    obtain ⟨q, hq⟩ := Option.isSome_iff_exists.mp hs
    refine ⟨q, List.mem_of_find?_eq_some hq, by simpa using List.find?_some hq, ?_⟩
    unfold get_project_id_by_name
    rw [hq]
  · intro hall
    have hnone : (projects.find? fun p => pyLower (pyStrip p.name) == pyLower (pyStrip path)) = none := by
      rw [List.find?_eq_none]
      intro p hp
      simp [hall p hp]
    unfold get_project_id_by_name
    rw [hnone]

/-- Witness for C4: a top-level project literally named "A/B" is resolved
by the exact match even though the path contains "/"; with no exact match,
the result is exactly the hierarchical branch. -/
theorem C4_exact_match_first_witness :
    (∃ p ∈ [{ id := Ident.int 7, name := "A/B" : Project }],
      pyLower (pyStrip p.name) = pyLower (pyStrip " a/b ") ∧
        get_project_id_by_name [{ id := Ident.int 7, name := "A/B" }] " a/b " = some p.id) ∧
    get_project_id_by_name [{ id := Ident.int 7, name := "C" }] "A/B" =
      (if ("A/B" : String).data.contains '/' then
        resolve_hierarchical_project [{ id := Ident.int 7, name := "C" }] "A/B"
      else none) :=
  ⟨(C4_exact_match_first [{ id := Ident.int 7, name := "A/B" }] " a/b ").1
      ⟨{ id := Ident.int 7, name := "A/B" }, by decide, by decide⟩,
   (C4_exact_match_first [{ id := Ident.int 7, name := "C" }] "A/B").2 (by decide)⟩

/-- C7: an unresolvable (or falsy) queue name yields the not-found result
with only the project listing issued; a resolvable project with an empty
active task set yields the `empty` result with only listing calls issued —
in both cases no mutation call appears in the trace.  The source spells the
not-found status "missing_project"; the spec calls it `project_not_found`. -/
theorem C7_not_found_and_empty (env : Env) (cache : Option (List Label)) (cfg : Cfg) :
    (env.fail .listProjects = false →
      pyTruthyOpt (get_project_id_by_name env.projects cfg.project_name) = false →
      promote_queue env cache cfg =
        (some { project := cfg.project_name, status := "missing_project" },
         [.listProjects], cache)) ∧
    (∀ pid, env.fail .listProjects = false → env.fail (.listTasks pid) = false →
      get_project_id_by_name env.projects cfg.project_name = some pid →
      pyTruthy pid = true →
      env.tasksOf pid = [] →
      promote_queue env cache cfg =
        (some { project := cfg.project_name, status := "empty" },
         [.listProjects, .listTasks pid], cache)) := by
  constructor
  · intro hf hfalsy
    match hres : get_project_id_by_name env.projects cfg.project_name with
    | none => simp [promote_queue, hf, hres]
    | some pid =>
      rw [hres] at hfalsy
      simp only [pyTruthyOpt] at hfalsy
      simp [promote_queue, hf, hres, hfalsy]
  · intro pid hf hft hres htruthy hempty
    simp [promote_queue, hf, hres, htruthy, hft, hempty, sortTasks]

/-- Witness for C7 at concrete inputs: an unknown queue name, and a known
project with no tasks. -/
theorem C7_not_found_and_empty_witness :
    (promote_queue
        { projects := [], tasksOf := fun _ => [], labels := [], createdId := fun _ => .int 9,
          fail := fun _ => false } none { project_name := "chores" } =
      (some { project := "chores", status := "missing_project" }, [.listProjects], none)) ∧
    (promote_queue
        { projects := [{ id := .int 1, name := "chores" }], tasksOf := fun _ => [], labels := [],
          createdId := fun _ => .int 9, fail := fun _ => false } none
        { project_name := "chores" } =
      (some { project := "chores", status := "empty" },
       [.listProjects, .listTasks (.int 1)], none)) :=
  ⟨(C7_not_found_and_empty _ none { project_name := "chores" }).1 rfl (by decide),
   (C7_not_found_and_empty _ none { project_name := "chores" }).2 (.int 1) rfl rfl (by decide)
     (by decide) rfl⟩

/-- C10: when the resolver returns a falsy identifier (here: the identifier
of an existing project whose remote id is `0` or `""`), `promote_queue`
reports the same missing-project outcome as an unresolvable name and issues
no task calls. -/
theorem C10_falsy_project_id (env : Env) (cache : Option (List Label)) (cfg : Cfg) (i : Ident)
    (hf : env.fail .listProjects = false)
    (hres : get_project_id_by_name env.projects cfg.project_name = some i)
    (hfalsy : pyTruthy i = false) :
    promote_queue env cache cfg =
      (some { project := cfg.project_name, status := "missing_project" },
       [.listProjects], cache) := by
  simp [promote_queue, hf, hres, hfalsy]

/-- Witness for C10: a project that exists remotely under the configured
name but whose id is the empty string is reported as missing. -/
theorem C10_falsy_project_id_witness :
    promote_queue
        { projects := [{ id := .str "", name := "chores" }], tasksOf := fun _ => [],
          labels := [], createdId := fun _ => .int 9, fail := fun _ => false } none
        { project_name := "chores" } =
      (some { project := "chores", status := "missing_project" }, [.listProjects], none) :=
  C10_falsy_project_id _ none { project_name := "chores" } (.str "") rfl (by decide) rfl

/-! ### The hierarchical resolver agrees with its segment-walk description -/

theorem foldl_append_filter {α β : Type} (f : α → Bool) (g : α → β) :
    ∀ (l : List α) (init : List β),
      l.foldl (fun acc p => if f p then acc ++ [g p] else acc) init =
        init ++ (l.filter f).map g
  | [], init => by simp
  | p :: l, init => by
    simp only [List.foldl_cons, List.filter_cons]
    cases hf : f p
    · simp [foldl_append_filter f g l init]
    · simp [foldl_append_filter f g l (init ++ [g p])]

theorem childrenMapGet_eq (projects : List Project) (pid : Ident) :
    childrenMapGet projects pid =
      (projects.filter fun p => pyTruthyOpt p.parent_id && p.parent_id == some pid).map
        (·.id) := by
  simpa using foldl_append_filter _ _ projects []

theorem rootCandidates_eq (projects : List Project) (seg0 : String) :
    rootCandidates projects seg0 =
      (projects.filter fun p =>
        !pyTruthyOpt p.parent_id && pyLower (pyStrip p.name) == pyLower seg0).map (·.id) := by
  simpa using foldl_append_filter _ _ projects []

theorem foldl_lookup_of_not_mem (i : Ident) :
    ∀ (projects : List Project) (acc : Option Project),
      (∀ p ∈ projects, p.id ≠ i) →
      projects.foldl (fun acc p => if p.id = i then some p else acc) acc = acc
  | [], _, _ => rfl
  | q :: l, acc, h => by
    simp only [List.foldl_cons, if_neg (h q (List.mem_cons_self q l))]
    exact foldl_lookup_of_not_mem i l acc fun p hp => h p (List.mem_cons_of_mem q hp)

theorem lookupProjectMap_of_mem :
    ∀ (projects : List Project), ((projects.map (·.id)).Nodup) → ∀ p ∈ projects,
      lookupProjectMap projects p.id = some p
  | [], _, p, hp => absurd hp (List.not_mem_nil p)
  | q :: l, hn, p, hp => by
    rw [List.map_cons, List.nodup_cons] at hn
    rcases List.mem_cons.mp hp with rfl | hmem
    · show List.foldl _ (if p.id = p.id then some p else none) l = some p
      rw [if_pos rfl]
      exact foldl_lookup_of_not_mem p.id l (some p) fun r hr he =>
        hn.1 (he ▸ List.mem_map_of_mem (·.id) hr)
    · have hne : q.id ≠ p.id := fun he =>
        hn.1 (he ▸ List.mem_map_of_mem (·.id) hmem)
      show List.foldl _ (if q.id = p.id then some q else none) l = some p
      rw [if_neg hne]
      exact lookupProjectMap_of_mem l hn.2 p hmem

theorem find?_congr_mem {α : Type} {f g : α → Bool} (l : List α)
    (hfg : ∀ x ∈ l, f x = g x) : l.find? f = l.find? g := by
  induction l with
  | nil => rfl
  | cons a as ih =>
    rw [List.find?_cons, List.find?_cons, hfg a (List.mem_cons_self a as)]
    cases g a
    · exact ih fun x hx => hfg x (List.mem_cons_of_mem a hx)
    · rfl

theorem child_filter_congr {projects : List Project} (hwf : parentsWF projects) (cur : Ident) :
    ∀ p ∈ projects,
      (pyTruthyOpt p.parent_id && p.parent_id == some cur) = (p.parent_id == some cur) := by
  intro p hp
  rcases hwf p hp with hnone | htr
  · rw [hnone]
    rfl
  · rw [htr, Bool.true_and]

theorem root_filter_congr {projects : List Project} (hwf : parentsWF projects) (seg0 : String) :
    ∀ p ∈ projects,
      (!pyTruthyOpt p.parent_id && pyLower (pyStrip p.name) == pyLower seg0) =
        ((p.parent_id == none : Bool) && pyLower (pyStrip p.name) == pyLower seg0) := by
  intro p hp
  rcases hwf p hp with hnone | htr
  · rw [hnone]
    rfl
  · rw [htr]
    cases hpar : p.parent_id
    · rw [hpar] at htr
      simp [pyTruthyOpt] at htr
    · rfl

theorem findChild_eq {projects : List Project} (hwf : parentsWF projects)
    (hnodup : (projects.map (·.id)).Nodup) (cur : Ident) (part : String) :
    findChild projects cur part =
      ((projects.filter fun p => p.parent_id == some cur).find? fun p =>
        pyLower (pyStrip p.name) == pyLower part).map (·.id) := by
  unfold findChild
  rw [childrenMapGet_eq, List.filter_congr (child_filter_congr hwf cur), List.find?_map]
  have hcong := find?_congr_mem (projects.filter fun p => p.parent_id == some cur)
    (f := fun p => (lookupProjectMap projects p.id).any fun cp =>
      pyLower (pyStrip cp.name) == pyLower part)
    (g := fun p => pyLower (pyStrip p.name) == pyLower part)
    (fun p hp => by
      show (lookupProjectMap projects p.id).any
          (fun cp => pyLower (pyStrip cp.name) == pyLower part) =
        (pyLower (pyStrip p.name) == pyLower part)
      rw [lookupProjectMap_of_mem projects hnodup p (List.mem_of_mem_filter hp)]
      rfl)
  rw [show ((fun cid => (lookupProjectMap projects cid).any fun cp =>
      pyLower (pyStrip cp.name) == pyLower part) ∘ (fun (p : Project) => p.id)) =
      fun p => (lookupProjectMap projects p.id).any fun cp =>
        pyLower (pyStrip cp.name) == pyLower part from rfl, hcong]

theorem walkPath_eq_claim {projects : List Project} (hwf : parentsWF projects)
    (hnodup : (projects.map (·.id)).Nodup) :
    ∀ (segs : List String) (cur : Ident),
      walkPath projects cur segs = walkClaimC3 projects cur segs
  | [], _ => rfl
  | seg :: segs, cur => by
    simp only [walkPath, walkClaimC3]
    rw [findChild_eq hwf hnodup cur seg]
    cases hfind : (projects.filter fun p => p.parent_id == some cur).find? fun p =>
        pyLower (pyStrip p.name) == pyLower seg
    · rfl
    · simp only [Option.map_some]
      exact walkPath_eq_claim hwf hnodup segs _

/-- C3: for every well-shaped project forest (truthy-or-absent parents,
unique identifiers) and every slash-containing path with no exact full-name
match, resolution equals the claim's description: split into stripped
segments, take every parentless project case-insensitively matching the
first segment as a root candidate, walk the remaining segments through
direct children (first case-insensitive match wins, failed walks abandon
the candidate), and return the identifier reached by the first candidate in
listing order whose complete walk succeeds, or `none` ("not found") without
raising. -/
theorem C3_hierarchical_resolution (projects : List Project) (path : String)
    (hwf : parentsWF projects)
    (hnodup : (projects.map (·.id)).Nodup)
    (hnoexact : ∀ p ∈ projects, pyLower (pyStrip p.name) ≠ pyLower (pyStrip path))
    (hslash : path.data.contains '/' = true) :
    get_project_id_by_name projects path = resolveClaimC3 projects path := by
  have hfind : (projects.find? fun p => pyLower (pyStrip p.name) == pyLower (pyStrip path)) =
      none := by
    rw [List.find?_eq_none]
    intro p hp
    simp [hnoexact p hp]
  unfold get_project_id_by_name
  rw [hfind]
  show (if path.data.contains '/' then resolve_hierarchical_project projects path else none) = _
  rw [if_pos hslash]
  have hroot := List.filter_congr
    (root_filter_congr hwf (((pySplitSlash path).map pyStrip).headD ""))
  simp only [resolve_hierarchical_project, resolveClaimC3, rootCandidates_eq, hroot,
    List.findSome?_map, Function.comp, walkPath_eq_claim hwf hnodup]
  rfl

/-- Witness for C3 at a concrete forest: the path
"Chores/Rotating Chore Queue" resolves hierarchically, and both the source
resolver and the claim's description return the child's identifier. -/
theorem C3_hierarchical_resolution_witness :
    get_project_id_by_name
        [{ id := .int 1, name := "Chores" },
         { id := .int 2, name := "Rotating Chore Queue", parent_id := some (.int 1) },
         { id := .int 3, name := "Other" }] "Chores/Rotating Chore Queue" =
      resolveClaimC3
        [{ id := .int 1, name := "Chores" },
         { id := .int 2, name := "Rotating Chore Queue", parent_id := some (.int 1) },
         { id := .int 3, name := "Other" }] "Chores/Rotating Chore Queue" :=
  C3_hierarchical_resolution _ _ (by unfold parentsWF; decide) (by decide) (by decide)
    (by decide)

/-! ### A closed form for a successful promotion run -/

theorem clearRest_ok (env : Env) (lang : String) :
    ∀ rest : List Task,
      (∀ t ∈ rest, env.fail (.updateDue t.id "no due date" lang) = false) →
      clearRest env lang rest =
        (.ok (rest.filter fun t => t.due.isSome).length, clearTrace lang rest)
  | [], _ => rfl
  | t :: ts, h => by
    have ih := clearRest_ok env lang ts fun s hs => h s (List.mem_cons_of_mem t hs)
    cases hd : t.due with
    | none => simp [clearRest, hd, ih, clearTrace, List.filter_cons]
    | some d =>
      simp [clearRest, hd, h t (List.mem_cons_self t ts), ih, clearTrace, List.filter_cons]

theorem ensure_label_trace_shape (env : Env) (cache : Option (List Label)) (ln : String) :
    ∀ c ∈ (ensure_label env cache ln).2.2,
      c = Call.listLabels ∨ ∃ n, c = Call.createLabel n := by
  intro c hc
  simp only [ensure_label] at hc
  repeat' split at hc
  all_goals fin_cases hc
  all_goals simp

theorem labelStep_trace_shape (env : Env) (cache : Option (List Label)) (head : Task)
    (pl : String) :
    ∀ c ∈ (labelStep env cache head pl).2.2,
      c = Call.listLabels ∨ (∃ n, c = Call.createLabel n) ∨
        ∃ tid ls, c = Call.updateLabels tid ls := by
  intro c hc
  have hens : ∀ hcc : c ∈ (ensure_label env cache pl).2.2,
      c = Call.listLabels ∨ (∃ n, c = Call.createLabel n) ∨
        ∃ tid ls, c = Call.updateLabels tid ls := by
    intro hcc
    rcases ensure_label_trace_shape env cache pl c hcc with h | h
    · exact Or.inl h
    · exact Or.inr (Or.inl h)
  unfold labelStep at hc
  rcases hE : ensure_label env cache pl with ⟨res, cache2, tr⟩
  have htr : ∀ hcc : c ∈ tr,
      c = Call.listLabels ∨ (∃ n, c = Call.createLabel n) ∨
        ∃ tid ls, c = Call.updateLabels tid ls := fun hcc => hens (by rw [hE]; exact hcc)
  cases res with
  | error e =>
    rw [hE] at hc
    exact htr hc
  | ok lid =>
    rw [hE] at hc
    have hc2 : c ∈ (if !head.labels.contains lid && !head.labels.contains (Ident.str pl) then
        (if env.fail (Call.updateLabels head.id (head.labels ++ [lid])) then
          ((Except.error () : Except Unit Unit), cache2,
            tr ++ [Call.updateLabels head.id (head.labels ++ [lid])])
        else (Except.ok (), cache2, tr ++ [Call.updateLabels head.id (head.labels ++ [lid])]))
      else ((Except.ok () : Except Unit Unit), cache2, tr)).2.2 := hc
    split at hc2
    · split at hc2 <;> rw [List.mem_append] at hc2 <;> rcases hc2 with hc2 | hc2
      · exact htr hc2
      · simp at hc2
        exact Or.inr (Or.inr ⟨_, _, hc2⟩)
      · exact htr hc2
      · simp at hc2
        exact Or.inr (Or.inr ⟨_, _, hc2⟩)
    · exact htr hc2

theorem promote_queue_ok (env : Env) (cache : Option (List Label)) (cfg : Cfg)
    (pid : Ident) (head : Task) (rest : List Task)
    (hf1 : env.fail .listProjects = false)
    (hf2 : env.fail (.listTasks pid) = false)
    (hf3 : ∀ tid ds l, env.fail (.updateDue tid ds l) = false)
    (hres : get_project_id_by_name env.projects cfg.project_name = some pid)
    (htruthy : pyTruthy pid = true)
    (hsort : sortTasks (env.tasksOf pid) = head :: rest) :
    promote_queue env cache cfg =
      (some { project := cfg.project_name, status := "ok",
              promoted_task := some (head.content.getD "(unnamed)"),
              cleared_due_on := some (if cfg.clear_due_on_rest
                then (rest.filter fun t => t.due.isSome).length else 0),
              labeled := some (if pyTruthyStrOpt cfg.promote_label then
                  exceptOkBool (labelStep env cache head (cfg.promote_label.getD "")).1
                else false) },
       [Call.listProjects, .listTasks pid, .updateDue head.id cfg.due_string cfg.language] ++
         (if cfg.clear_due_on_rest then clearTrace cfg.language rest else []) ++
         (if pyTruthyStrOpt cfg.promote_label
           then (labelStep env cache head (cfg.promote_label.getD "")).2.2 else []),
       if pyTruthyStrOpt cfg.promote_label
         then (labelStep env cache head (cfg.promote_label.getD "")).2.1 else cache) := by
  have hclear := clearRest_ok env cfg.language rest fun t _ => hf3 t.id "no due date" cfg.language
  simp only [promote_queue, hf1, hres, htruthy, Bool.not_true, hf2, hsort, hf3,
    Bool.false_eq_true, if_false]
  cases hcd : cfg.clear_due_on_rest with
  | false =>
    simp only [Bool.false_eq_true, if_false]
    cases hpt : pyTruthyStrOpt cfg.promote_label with
    | false => simp
    | true =>
      rcases hls : labelStep env cache head (cfg.promote_label.getD "") with ⟨res, cache2, tr2⟩
      cases res <;> simp [exceptOkBool, hls]
  | true =>
    simp only [if_true, hclear]
    cases hpt : pyTruthyStrOpt cfg.promote_label with
    | false => simp
    | true =>
      rcases hls : labelStep env cache head (cfg.promote_label.getD "") with ⟨res, cache2, tr2⟩
      cases res <;> simp [exceptOkBool, hls]

/-- C6: with `clear_due_on_rest` set, the run issues one "no due date"
update for exactly the rest tasks whose due field is non-null, in order;
`cleared_due_on` equals their number; the labeling tail issues no due-date
update at all; and (when the configured due string is not itself the clear
directive) none of the three leading calls is a clear-due call, so no task
outside `rest` has its due date cleared. -/
theorem C6_demote_exact (env : Env) (cache : Option (List Label)) (cfg : Cfg)
    (pid : Ident) (head : Task) (rest : List Task)
    (hf1 : env.fail .listProjects = false)
    (hf2 : env.fail (.listTasks pid) = false)
    (hf3 : ∀ tid ds l, env.fail (.updateDue tid ds l) = false)
    (hres : get_project_id_by_name env.projects cfg.project_name = some pid)
    (htruthy : pyTruthy pid = true)
    (hsort : sortTasks (env.tasksOf pid) = head :: rest)
    (hclr : cfg.clear_due_on_rest = true)
    (hds : cfg.due_string ≠ "no due date") :
    ∃ r ltr lcache,
      promote_queue env cache cfg =
        (some r,
         [Call.listProjects, .listTasks pid,
          .updateDue head.id cfg.due_string cfg.language] ++
           ((rest.filter fun t => t.due.isSome).map fun t =>
             Call.updateDue t.id "no due date" cfg.language) ++ ltr,
         lcache) ∧
      r.cleared_due_on = some ((rest.filter fun t => t.due.isSome).length) ∧
      (∀ c ∈ ltr, ∀ tid ds l, c ≠ Call.updateDue tid ds l) ∧
      (∀ tid l, Call.updateDue tid "no due date" l ∉
        [Call.listProjects, Call.listTasks pid,
         Call.updateDue head.id cfg.due_string cfg.language]) := by
  have h := promote_queue_ok env cache cfg pid head rest hf1 hf2 hf3 hres htruthy hsort
  rw [hclr] at h
  simp only [if_true] at h
  refine ⟨_, _, _, h, ?_, ?_, ?_⟩
  · rfl
  · intro c hc tid ds l heq
    subst heq
    by_cases hpt : pyTruthyStrOpt cfg.promote_label = true
    · rw [if_pos hpt] at hc
      rcases labelStep_trace_shape env cache head (cfg.promote_label.getD "") _ hc with
        h1 | ⟨n, h1⟩ | ⟨a, b, h1⟩ <;> simp at h1
    · rw [if_neg hpt] at hc
      exact absurd hc (List.not_mem_nil _)
  · intro tid l hmem
    simp only [List.mem_cons, List.not_mem_nil, or_false] at hmem
    rcases hmem with h1 | h1 | h1
    · exact Call.noConfusion h1
    · exact Call.noConfusion h1
    · injection h1 with _ h2 _
      exact hds h2.symm

/-- Witness for C6: a two-task queue in which only the rest task carries a
due date receives exactly one clear-due call and reports one demotion. -/
theorem C6_demote_exact_witness :
    ∃ r ltr lcache,
      promote_queue wEnv none wCfg =
        (some r,
         [Call.listProjects, .listTasks (.int 1),
          .updateDue wTaskA.id wCfg.due_string wCfg.language] ++
           (([wTaskB].filter fun t => t.due.isSome).map fun t =>
             Call.updateDue t.id "no due date" wCfg.language) ++ ltr,
         lcache) ∧
      r.cleared_due_on = some (([wTaskB].filter fun t => t.due.isSome).length) ∧
      (∀ c ∈ ltr, ∀ tid ds l, c ≠ Call.updateDue tid ds l) ∧
      (∀ tid l, Call.updateDue tid "no due date" l ∉
        [Call.listProjects, Call.listTasks (.int 1),
         Call.updateDue wTaskA.id wCfg.due_string wCfg.language]) :=
  C6_demote_exact wEnv none wCfg (.int 1) wTaskA [wTaskB]
    rfl rfl (fun _ _ _ => rfl) (by decide) (by decide)
    (by rw [show wEnv.tasksOf (Ident.int 1) = [wTaskA, wTaskB] from rfl, sortTasks_pair]
        exact if_pos (by decide))
    rfl (by decide)

/-- C8: when a promote label is configured, the environment's failure
oracle is unconstrained on the labeling calls (label listing, creation, and
the label write), yet the run still returns a summary — never an
exception — with status ok, the promoted title and demotion count computed
before labeling, and `labeled` reporting exactly whether the labeling step
succeeded (`false` whenever it raised). -/
theorem C8_labeling_best_effort (env : Env) (cache : Option (List Label)) (cfg : Cfg)
    (pid : Ident) (head : Task) (rest : List Task)
    (hf1 : env.fail .listProjects = false)
    (hf2 : env.fail (.listTasks pid) = false)
    (hf3 : ∀ tid ds l, env.fail (.updateDue tid ds l) = false)
    (hres : get_project_id_by_name env.projects cfg.project_name = some pid)
    (htruthy : pyTruthy pid = true)
    (hsort : sortTasks (env.tasksOf pid) = head :: rest)
    (hpl : pyTruthyStrOpt cfg.promote_label = true) :
    ∃ tr lcache,
      promote_queue env cache cfg =
        (some { project := cfg.project_name, status := "ok",
                promoted_task := some (head.content.getD "(unnamed)"),
                cleared_due_on := some (if cfg.clear_due_on_rest
                  then (rest.filter fun t => t.due.isSome).length else 0),
                labeled := some (exceptOkBool
                  (labelStep env cache head (cfg.promote_label.getD "")).1) },
         tr, lcache) ∧
      (∀ e, (labelStep env cache head (cfg.promote_label.getD "")).1 = .error e →
        exceptOkBool (labelStep env cache head (cfg.promote_label.getD "")).1 = false) := by
  have h := promote_queue_ok env cache cfg pid head rest hf1 hf2 hf3 hres htruthy hsort
  rw [hpl] at h
  simp only [if_true] at h
  exact ⟨_, _, h, fun e he => by rw [he]; rfl⟩

/-- Witness for C8: the label listing call raises, yet the run returns an
ok summary with the promoted title, the demotion count, and a `labeled`
flag that is false because the labeling step errored. -/
theorem C8_labeling_best_effort_witness :
    (∃ tr lcache,
      promote_queue wEnvLabelFail none wCfgLabel =
        (some { project := wCfgLabel.project_name, status := "ok",
                promoted_task := some (wTaskA.content.getD "(unnamed)"),
                cleared_due_on := some (if wCfgLabel.clear_due_on_rest
                  then ([wTaskB].filter fun t => t.due.isSome).length else 0),
                labeled := some (exceptOkBool
                  (labelStep wEnvLabelFail none wTaskA
                    (wCfgLabel.promote_label.getD "")).1) },
         tr, lcache) ∧
      (∀ e, (labelStep wEnvLabelFail none wTaskA (wCfgLabel.promote_label.getD "")).1 =
          .error e →
        exceptOkBool
          (labelStep wEnvLabelFail none wTaskA (wCfgLabel.promote_label.getD "")).1 =
          false)) ∧
    (labelStep wEnvLabelFail none wTaskA (wCfgLabel.promote_label.getD "")).1 =
      .error () :=
  ⟨C8_labeling_best_effort wEnvLabelFail none wCfgLabel (.int 1) wTaskA [wTaskB]
      rfl rfl (fun _ _ _ => rfl) (by decide) (by decide)
      (by rw [show wEnvLabelFail.tasksOf (Ident.int 1) = [wTaskA, wTaskB] from rfl,
            sortTasks_pair]
          exact if_pos (by decide))
      rfl,
   rfl⟩

/-- C9: if the head task already carries the configured promote label —
whether by the identifier the label step resolves or by the raw label
token — the run issues no label-write call to the task (no `updateLabels`
call appears anywhere in the trace) and the result still reports
`labeled = true`. -/
theorem C9_label_idempotent (env : Env) (cache : Option (List Label)) (cfg : Cfg)
    (pid : Ident) (head : Task) (rest : List Task) (lid : Ident)
    (lcache : Option (List Label)) (etr : List Call)
    (hf1 : env.fail .listProjects = false)
    (hf2 : env.fail (.listTasks pid) = false)
    (hf3 : ∀ tid ds l, env.fail (.updateDue tid ds l) = false)
    (hres : get_project_id_by_name env.projects cfg.project_name = some pid)
    (htruthy : pyTruthy pid = true)
    (hsort : sortTasks (env.tasksOf pid) = head :: rest)
    (hpl : pyTruthyStrOpt cfg.promote_label = true)
    (hens : ensure_label env cache (cfg.promote_label.getD "") = (.ok lid, lcache, etr))
    (hcarry : (head.labels.contains lid ||
      head.labels.contains (.str (cfg.promote_label.getD ""))) = true) :
    ∃ tr,
      promote_queue env cache cfg =
        (some { project := cfg.project_name, status := "ok",
                promoted_task := some (head.content.getD "(unnamed)"),
                cleared_due_on := some (if cfg.clear_due_on_rest
                  then (rest.filter fun t => t.due.isSome).length else 0),
                labeled := some true },
         tr, lcache) ∧
      ∀ tid ls, Call.updateLabels tid ls ∉ tr := by
  have hstep : labelStep env cache head (cfg.promote_label.getD "") = (.ok (), lcache, etr) := by
    have hcond : (!head.labels.contains lid &&
        !head.labels.contains (Ident.str (cfg.promote_label.getD ""))) = false := by
      cases h1 : head.labels.contains lid
      · rw [h1] at hcarry
        simp only [Bool.false_or] at hcarry
        rw [hcarry]
        rfl
      · rfl
    unfold labelStep
    rw [hens]
    show (if (!head.labels.contains lid &&
        !head.labels.contains (Ident.str (cfg.promote_label.getD ""))) = true
      then _ else _) = _
    rw [if_neg fun hc => Bool.false_ne_true (hcond.symm.trans hc)]
  have h := promote_queue_ok env cache cfg pid head rest hf1 hf2 hf3 hres htruthy hsort
  rw [hpl] at h
  simp only [if_true, hstep, exceptOkBool] at h
  refine ⟨_, h, ?_⟩
  intro tid ls hmem
  rcases List.mem_append.mp hmem with h1 | h1
  · rcases List.mem_append.mp h1 with h2 | h2
    · simp only [List.mem_cons, List.not_mem_nil, or_false] at h2
      rcases h2 with h3 | h3 | h3 <;> exact Call.noConfusion h3
    · by_cases hcd : cfg.clear_due_on_rest = true
      · rw [if_pos hcd] at h2
        unfold clearTrace at h2
        rcases List.mem_map.mp h2 with ⟨t, _, ht⟩
        exact Call.noConfusion ht
      · rw [if_neg hcd] at h2
        exact absurd h2 (List.not_mem_nil _)
  · rcases ensure_label_trace_shape env cache (cfg.promote_label.getD "") _
        (by rw [hens]; exact h1) with h2 | ⟨n, h2⟩ <;>
      exact Call.noConfusion h2

/-- Witness for C9: the head already carries label id 42; the run reports
`labeled = true` and its trace holds no label-write call. -/
theorem C9_label_idempotent_witness :
    ∃ tr,
      promote_queue wEnvL none wCfgLabel =
        (some { project := wCfgLabel.project_name, status := "ok",
                promoted_task := some (wTaskL.content.getD "(unnamed)"),
                cleared_due_on := some (if wCfgLabel.clear_due_on_rest
                  then ([wTaskB].filter fun t => t.due.isSome).length else 0),
                labeled := some true },
         tr, some [{ id := .int 42, name := "@next" }]) ∧
      ∀ tid ls, Call.updateLabels tid ls ∉ tr :=
  C9_label_idempotent wEnvL none wCfgLabel (.int 1) wTaskL [wTaskB] (.int 42)
    (some [{ id := .int 42, name := "@next" }]) [.listLabels]
    rfl rfl (fun _ _ _ => rfl) (by decide) (by decide)
    (by rw [show wEnvL.tasksOf (Ident.int 1) = [wTaskL, wTaskB] from rfl, sortTasks_pair]
        exact if_pos (by decide))
    rfl rfl (by decide)

/-! ### Running promote twice: tracking one task through the applied trace -/

theorem applyCallTasks_eq_map (ts : List Task) (c : Call) :
    applyCallTasks ts c = ts.map (applyFun c) := by
  cases c with
  | updateDue tid ds l => rfl
  | updateLabels tid ls => rfl
  | listProjects => exact (List.map_id' ts).symm
  | listTasks pid => exact (List.map_id' ts).symm
  | listLabels => exact (List.map_id' ts).symm
  | createLabel n => exact (List.map_id' ts).symm

theorem foldl_applyCallTasks_eq_map :
    ∀ (tr : List Call) (ts : List Task), tr.foldl applyCallTasks ts = ts.map (applyAll tr)
  | [], ts => (List.map_id' ts).symm
  | c :: tr, ts => by
    simp only [List.foldl_cons]
    rw [applyCallTasks_eq_map, foldl_applyCallTasks_eq_map tr, List.map_map]
    rfl

theorem applyAll_append (tr1 tr2 : List Call) (t : Task) :
    applyAll (tr1 ++ tr2) t = applyAll tr2 (applyAll tr1 t) := by
  unfold applyAll
  exact List.foldl_append _ _ _ _

theorem applyFun_id (c : Call) (t : Task) : (applyFun c t).id = t.id := by
  cases c <;> dsimp only [applyFun] <;> try rfl
  · split <;> rfl
  · split <;> rfl

theorem applyFun_content (c : Call) (t : Task) : (applyFun c t).content = t.content := by
  cases c <;> dsimp only [applyFun] <;> try rfl
  · split <;> rfl
  · split <;> rfl

theorem applyFun_key (c : Call) (t : Task) :
    parse_order_key (applyFun c t) = parse_order_key t := by
  cases c <;> dsimp only [applyFun] <;> try rfl
  · split <;> rfl
  · split <;> rfl

theorem applyAll_id : ∀ (tr : List Call) (t : Task), (applyAll tr t).id = t.id
  | [], _ => rfl
  | c :: tr, t => by
    show (applyAll tr (applyFun c t)).id = t.id
    rw [applyAll_id tr, applyFun_id]

theorem applyAll_content : ∀ (tr : List Call) (t : Task),
    (applyAll tr t).content = t.content
  | [], _ => rfl
  | c :: tr, t => by
    show (applyAll tr (applyFun c t)).content = t.content
    rw [applyAll_content tr, applyFun_content]

theorem applyAll_key : ∀ (tr : List Call) (t : Task),
    parse_order_key (applyAll tr t) = parse_order_key t
  | [], _ => rfl
  | c :: tr, t => by
    show parse_order_key (applyAll tr (applyFun c t)) = parse_order_key t
    rw [applyAll_key tr, applyFun_key]

theorem applyAll_due_of_no_target :
    ∀ (tr : List Call) (t : Task), (∀ ds l, Call.updateDue t.id ds l ∉ tr) →
      (applyAll tr t).due = t.due
  | [], _, _ => rfl
  | c :: tr, t, h => by
    have hdue : (applyFun c t).due = t.due := by
      cases c with
      | updateDue tid ds l =>
        dsimp only [applyFun]
        split
        · rename_i heq
          exact absurd (heq ▸ List.mem_cons_self (Call.updateDue tid ds l) tr) (h ds l)
        · rfl
      | updateLabels tid ls =>
        dsimp only [applyFun]
        split <;> rfl
      | listProjects => rfl
      | listTasks pid => rfl
      | listLabels => rfl
      | createLabel n => rfl
    show (applyAll tr (applyFun c t)).due = t.due
    rw [applyAll_due_of_no_target tr (applyFun c t)
      (fun ds l hm => h ds l (by rw [applyFun_id] at hm; exact List.mem_cons_of_mem c hm)),
      hdue]

theorem clearTrace_not_target {rest : List Task} {lang : String} {i : Ident}
    (hni : ∀ s ∈ rest, s.id ≠ i) :
    ∀ ds l, Call.updateDue i ds l ∉ clearTrace lang rest := by
  intro ds l hm
  unfold clearTrace at hm
  rcases List.mem_map.mp hm with ⟨s, hs, heq⟩
  injection heq with h1 _ _
  exact hni s (List.mem_of_mem_filter hs) h1

theorem clearTrace_clears :
    ∀ (rest : List Task) (lang : String) (t : Task),
      ((rest.map (·.id)).Nodup) → t ∈ rest →
      (applyAll (clearTrace lang rest) t).due = none
  | [], _, t, _, ht => absurd ht (List.not_mem_nil t)
  | r :: rs, lang, t, hn, ht => by
    rw [List.map_cons, List.nodup_cons] at hn
    have hnotin : ∀ s ∈ rs, s.id ≠ r.id := fun s hs he =>
      hn.1 (he ▸ List.mem_map_of_mem (·.id) hs)
    rcases List.mem_cons.mp ht with rfl | hmem
    · cases hd : t.due with
      | some d =>
        have hct : clearTrace lang (t :: rs) =
            Call.updateDue t.id "no due date" lang :: clearTrace lang rs := by
          unfold clearTrace
          rw [List.filter_cons]
          simp [hd]
        rw [hct]
        show (applyAll (clearTrace lang rs)
          (applyFun (Call.updateDue t.id "no due date" lang) t)).due = none
        have ht' : applyFun (Call.updateDue t.id "no due date" lang) t =
            { t with due := none } := by
          dsimp only [applyFun]
          rw [if_pos rfl, if_pos rfl]
        rw [ht']
        exact (applyAll_due_of_no_target (clearTrace lang rs) { t with due := none }
          (clearTrace_not_target hnotin)).trans rfl
      | none =>
        have hct : clearTrace lang (t :: rs) = clearTrace lang rs := by
          unfold clearTrace
          rw [List.filter_cons]
          simp [hd]
        rw [hct, applyAll_due_of_no_target _ _ (clearTrace_not_target hnotin)]
        exact hd
    · have hne : t.id ≠ r.id := hnotin t hmem
      cases hd : r.due with
      | some d =>
        have hct : clearTrace lang (r :: rs) =
            Call.updateDue r.id "no due date" lang :: clearTrace lang rs := by
          unfold clearTrace
          rw [List.filter_cons]
          simp [hd]
        rw [hct]
        show (applyAll (clearTrace lang rs)
          (applyFun (Call.updateDue r.id "no due date" lang) t)).due = none
        have ht' : applyFun (Call.updateDue r.id "no due date" lang) t = t := by
          dsimp only [applyFun]
          rw [if_neg hne]
        rw [ht']
        exact clearTrace_clears rs lang t hn.2 hmem
      | none =>
        have hct : clearTrace lang (r :: rs) = clearTrace lang rs := by
          unfold clearTrace
          rw [List.filter_cons]
          simp [hd]
        rw [hct]
        exact clearTrace_clears rs lang t hn.2 hmem

theorem taskKeyLT_of_le_of_ne {a b : Task} (h1 : taskLE a b = true)
    (h2 : parse_order_key a ≠ parse_order_key b) : taskKeyLT a b := by
  rw [taskLE, keyLE_iff] at h1
  rcases h3 : keyLT (parse_order_key a) (parse_order_key b) with _ | _
  · exact absurd (keyLT_connex h3 h1) h2
  · exact h3

theorem pairwise_strict_of_sorted {l : List Task}
    (hs : l.Pairwise fun a b => taskLE a b)
    (hne : l.Pairwise fun a b => parse_order_key a ≠ parse_order_key b) :
    l.Pairwise taskKeyLT :=
  (hs.and hne).imp fun h => taskKeyLT_of_le_of_ne h.1 h.2

/-- C5 amended: with an unchanged remote state — the second run reading
exactly the snapshot left by the first run's writes — and unique task
identifiers and order keys (spec §3 invariants), both runs succeed, the
second run promotes the same head task (same reported title), and the
second run's demoted count is 0: it equals the first run's count only when
the first run cleared nothing. -/
theorem C5_promote_twice (env : Env) (cache : Option (List Label)) (cfg : Cfg) (pid : Ident)
    (hf : ∀ c, env.fail c = false)
    (hres : get_project_id_by_name env.projects cfg.project_name = some pid)
    (htruthy : pyTruthy pid = true)
    (hne : env.tasksOf pid ≠ [])
    (hids : ((env.tasksOf pid).map (·.id)).Nodup)
    (hkeys : ((env.tasksOf pid).map parse_order_key).Nodup) :
    ∃ r1 tr1 c1 r2 tr2 c2,
      promote_queue env cache cfg = (some r1, tr1, c1) ∧
      promote_queue (applyTraceEnv env tr1) c1 cfg = (some r2, tr2, c2) ∧
      r1.status = "ok" ∧ r2.status = "ok" ∧
      r2.promoted_task = r1.promoted_task ∧
      r2.cleared_due_on = some 0 := by
  cases hsort : sortTasks (env.tasksOf pid) with
  | nil =>
    have hp := sortTasks_perm (env.tasksOf pid)
    rw [hsort] at hp
    exact absurd hp.nil_eq.symm hne
  | cons head rest =>
    have h1 := promote_queue_ok env cache cfg pid head rest (hf _) (hf _) (fun _ _ _ => hf _)
      hres htruthy hsort
    set base : List Call := [Call.listProjects, Call.listTasks pid,
      Call.updateDue head.id cfg.due_string cfg.language] with hbase
    set ctr : List Call :=
      (if cfg.clear_due_on_rest then clearTrace cfg.language rest else []) with hctr
    set ltr : List Call := (if pyTruthyStrOpt cfg.promote_label
      then (labelStep env cache head (cfg.promote_label.getD "")).2.2 else []) with hltr
    set lcache1 : Option (List Label) := (if pyTruthyStrOpt cfg.promote_label
      then (labelStep env cache head (cfg.promote_label.getD "")).2.1 else cache) with hlc
    set T1 : List Call := base ++ ctr ++ ltr with hT1
    have htasks2 : (applyTraceEnv env T1).tasksOf pid =
        (env.tasksOf pid).map (applyAll T1) :=
      foldl_applyCallTasks_eq_map T1 (env.tasksOf pid)
    have hkeymap : ((env.tasksOf pid).map (applyAll T1)).map parse_order_key =
        (env.tasksOf pid).map parse_order_key := by
      rw [List.map_map]
      exact List.map_congr_left fun t _ => applyAll_key T1 t
    have hnodup_pw : (env.tasksOf pid).Pairwise
        fun a b => parse_order_key a ≠ parse_order_key b :=
      List.pairwise_map.mp hkeys
    have hkeys_sorted : (sortTasks (env.tasksOf pid)).Pairwise
        fun a b => parse_order_key a ≠ parse_order_key b :=
      ((sortTasks_perm (env.tasksOf pid)).pairwise_iff
        (fun h he => h he.symm)).mpr hnodup_pw
    have hstrict1 : (sortTasks (env.tasksOf pid)).Pairwise taskKeyLT :=
      pairwise_strict_of_sorted (sortTasks_pairwise _) hkeys_sorted
    have hsorteq : sortTasks ((applyTraceEnv env T1).tasksOf pid) =
        (sortTasks (env.tasksOf pid)).map (applyAll T1) := by
      haveI : IsAntisymm Task taskKeyLT :=
        ⟨fun a b hab hba => absurd ((keyLT_asymm hab).symm.trans hba) Bool.false_ne_true⟩
      apply List.eq_of_perm_of_sorted (r := taskKeyLT)
      · exact ((sortTasks_perm _).trans (List.Perm.of_eq htasks2)).trans
          ((sortTasks_perm (env.tasksOf pid)).map _).symm
      · refine pairwise_strict_of_sorted (sortTasks_pairwise _) ?_
        have hkeys2 : (((applyTraceEnv env T1).tasksOf pid).map parse_order_key).Nodup := by
          rw [htasks2, hkeymap]
          exact hkeys
        exact ((sortTasks_perm _).pairwise_iff (fun h he => h he.symm)).mpr
          (List.pairwise_map.mp hkeys2)
      · show List.Pairwise taskKeyLT ((sortTasks (env.tasksOf pid)).map (applyAll T1))
        rw [List.pairwise_map]
        refine hstrict1.imp ?_
        intro a b hab
        show taskKeyLT (applyAll T1 a) (applyAll T1 b)
        unfold taskKeyLT
        rw [applyAll_key, applyAll_key]
        exact hab
    rw [hsort, List.map_cons] at hsorteq
    have hf2' : ∀ c, (applyTraceEnv env T1).fail c = false := hf
    have hres2 : get_project_id_by_name (applyTraceEnv env T1).projects cfg.project_name =
        some pid := hres
    have h2 := promote_queue_ok (applyTraceEnv env T1) lcache1 cfg pid (applyAll T1 head)
      (rest.map (applyAll T1)) (hf2' _) (hf2' _) (fun _ _ _ => hf2' _) hres2 htruthy hsorteq
    have hids_sorted : ((head :: rest).map (·.id)).Nodup := by
      have hperm := (sortTasks_perm (env.tasksOf pid)).map (·.id)
      rw [hsort] at hperm
      exact hperm.symm.nodup_iff.mp hids
    rw [List.map_cons, List.nodup_cons] at hids_sorted
    refine ⟨_, T1, lcache1, _, _, _, h1, h2, rfl, rfl, ?_, ?_⟩
    · show some ((applyAll T1 head).content.getD "(unnamed)") =
        some (head.content.getD "(unnamed)")
      rw [applyAll_content]
    · show some (if cfg.clear_due_on_rest
        then (((rest.map (applyAll T1)).filter fun t => t.due.isSome)).length else 0) = some 0
      cases hcd : cfg.clear_due_on_rest with
      | false => rfl
      | true =>
        have hGdue : ∀ t ∈ rest, (applyAll T1 t).due = none := by
          intro t ht
          rw [hT1, applyAll_append, applyAll_append]
          have hbase_t : applyAll base t = t := by
            rw [hbase]
            have hne2 : t.id ≠ head.id := fun he =>
              hids_sorted.1 (he ▸ List.mem_map_of_mem (·.id) ht)
            show applyFun (Call.updateDue head.id cfg.due_string cfg.language) t = t
            dsimp only [applyFun]
            rw [if_neg hne2]
          rw [hbase_t]
          have hctr_t : (applyAll ctr t).due = none := by
            rw [hctr, hcd]
            simp only [if_true]
            exact clearTrace_clears rest cfg.language t hids_sorted.2 ht
          have hltr_pres : (applyAll ltr (applyAll ctr t)).due = (applyAll ctr t).due := by
            apply applyAll_due_of_no_target
            intro ds l hm
            rw [hltr] at hm
            by_cases hpt : pyTruthyStrOpt cfg.promote_label = true
            · rw [if_pos hpt] at hm
              rcases labelStep_trace_shape env cache head (cfg.promote_label.getD "") _ hm
                with hsh | ⟨n, hsh⟩ | ⟨a, b, hsh⟩ <;> exact Call.noConfusion hsh
            · rw [if_neg hpt] at hm
              exact absurd hm (List.not_mem_nil _)
          rw [hltr_pres, hctr_t]
        have hfil : (rest.map (applyAll T1)).filter (fun t => t.due.isSome) = [] := by
          rw [List.filter_eq_nil_iff]
          intro x hx
          rcases List.mem_map.mp hx with ⟨t, ht, rfl⟩
          rw [hGdue t ht]
          simp
        rw [if_pos rfl, hfil]
        rfl

/-- C5 counterexample: on a queue whose rest task carries a due date, the
first run reports `cleared_due_on = 1` while the second run — on the
snapshot left by the first run's writes — reports `cleared_due_on = 0`, so
the two runs do not yield the same demoted count. -/
theorem C5_counterexample :
    promote_queue wEnv none wCfg =
      (some { project := "q", status := "ok", promoted_task := some "02 trash",
              cleared_due_on := some 1, labeled := some false },
       [Call.listProjects, Call.listTasks (Ident.int 1),
        Call.updateDue (Ident.int 10) "today" "en",
        Call.updateDue (Ident.int 11) "no due date" "en"], none) ∧
    promote_queue (applyTraceEnv wEnv
        [Call.listProjects, Call.listTasks (Ident.int 1),
         Call.updateDue (Ident.int 10) "today" "en",
         Call.updateDue (Ident.int 11) "no due date" "en"]) none wCfg =
      (some { project := "q", status := "ok", promoted_task := some "02 trash",
              cleared_due_on := some 0, labeled := some false },
       [Call.listProjects, Call.listTasks (Ident.int 1),
        Call.updateDue (Ident.int 10) "today" "en"], none) := by
  constructor
  · have hs1 : sortTasks (wEnv.tasksOf (Ident.int 1)) = wTaskA :: [wTaskB] := by
      rw [show wEnv.tasksOf (Ident.int 1) = [wTaskA, wTaskB] from rfl, sortTasks_pair]
      exact if_pos (by decide)
    have h1 := promote_queue_ok wEnv none wCfg (.int 1) wTaskA [wTaskB] rfl rfl
      (fun _ _ _ => rfl) (by decide) (by decide) hs1
    exact h1.trans (by rfl)
  · have hs2 : sortTasks ((applyTraceEnv wEnv
        [Call.listProjects, Call.listTasks (Ident.int 1),
         Call.updateDue (Ident.int 10) "today" "en",
         Call.updateDue (Ident.int 11) "no due date" "en"]).tasksOf (Ident.int 1)) =
        { id := .int 10, content := some "02 trash", created_at := some "c1",
          due := some "today" } ::
        [{ id := .int 11, content := some "10 dishes", created_at := some "c2" }] := by
      rw [show (applyTraceEnv wEnv
          [Call.listProjects, Call.listTasks (Ident.int 1),
           Call.updateDue (Ident.int 10) "today" "en",
           Call.updateDue (Ident.int 11) "no due date" "en"]).tasksOf (Ident.int 1) =
          [{ id := .int 10, content := some "02 trash", created_at := some "c1",
             due := some "today" },
           { id := .int 11, content := some "10 dishes", created_at := some "c2" }] from rfl,
        sortTasks_pair]
      exact if_pos (by decide)
    have h2 := promote_queue_ok (applyTraceEnv wEnv
        [Call.listProjects, Call.listTasks (Ident.int 1),
         Call.updateDue (Ident.int 10) "today" "en",
         Call.updateDue (Ident.int 11) "no due date" "en"]) none wCfg (.int 1)
      { id := .int 10, content := some "02 trash", created_at := some "c1",
        due := some "today" }
      [{ id := .int 11, content := some "10 dishes", created_at := some "c2" }]
      rfl rfl (fun _ _ _ => rfl) (by decide) (by decide) hs2
    exact h2.trans (by rfl)

/-- Witness for the amended C5 at concrete inputs: both runs succeed, the
promoted title agrees, and the second demoted count is 0. -/
theorem C5_promote_twice_witness :
    ∃ r1 tr1 c1 r2 tr2 c2,
      promote_queue wEnv none wCfg = (some r1, tr1, c1) ∧
      promote_queue (applyTraceEnv wEnv tr1) c1 wCfg = (some r2, tr2, c2) ∧
      r1.status = "ok" ∧ r2.status = "ok" ∧
      r2.promoted_task = r1.promoted_task ∧
      r2.cleared_due_on = some 0 :=
  C5_promote_twice wEnv none wCfg (.int 1) (fun _ => rfl) (by decide) (by decide)
    (by decide) (by decide) (by decide)

end ChoreQueue
